import Mathlib

/-!
Verification of the scalafmt partitioning and formatting rules
(`src/python/pants/backend/scala/lint/scalafmt/rules.py`).

The embedding models file paths as (directory, basename) pairs, Python
dicts as insertion-ordered association lists (matching CPython dict
semantics), Python sets as `Finset`s, and content digests as abstract
identifiers.  Collaborators that live outside this source tree
(`group_by_dir`, `gather_config_files_by_workspace_dir`, the engine's
`DigestSubset`/`MergeDigests` intrinsics and
`fallible_to_exec_result_or_raise`) are modelled from the spec, as noted
on each definition.  A Python `KeyError`/`IndexError` is modelled by
`Option`/`Except`.
-/

namespace Scalafmt

/-- A workspace-relative source-file path, already split the way
`os.path.split` splits it: `dir` is the containing directory (as a list
of path components) and `base` the file basename.  `os.path.join(dir,
base)` is recovered by pairing, so joining the dirname and basename of a
path yields the path itself. -/
structure SPath where
  dir : List String
  base : String
deriving DecidableEq, Repr

/-- Lookup in an association list; `lookupA m k` is Python `m[k]` with a
`KeyError` modelled as `none`. -/
def lookupA {κ β : Type} [DecidableEq κ] : List (κ × β) → κ → Option β
  | [], _ => none
  | (k, v) :: m, q => if q = k then some v else lookupA m q

/-- `bucketAdd m k xs` is Python `m[k].update(xs)` on a
`defaultdict(set)`: an existing key keeps its position and its bucket is
unioned with `xs`; a fresh key is appended at the end (CPython dicts
preserve insertion order). -/
def bucketAdd {κ α : Type} [DecidableEq κ] [DecidableEq α] :
    List (κ × Finset α) → κ → Finset α → List (κ × Finset α)
  | [], k, xs => [(k, xs)]
  | (k', s) :: m, k, xs =>
      if k = k' then (k', s ∪ xs) :: m else (k', s) :: bucketAdd m k xs

/-- `memB m k x`: some bucket stored under key `k` contains `x`. -/
def memB {κ α : Type} (m : List (κ × Finset α)) (k : κ) (x : α) : Prop :=
  ∃ s, (k, s) ∈ m ∧ x ∈ s

/-- Accumulator-passing form of `group_by_dir`'s loop: insert each
path's basename into the bucket of its directory. -/
def groupFold : List SPath → List (List String × Finset String) → List (List String × Finset String)
  | [], m => m
  | p :: ps, m => groupFold ps (bucketAdd m p.dir {p.base})

/-- Modelled from the spec: `pants.util.dirutil.group_by_dir` (the
DirectoryGrouper of section 4.1) is not part of this source tree.  It maps
each directory to the set of basenames of the input files lying in it,
directories ordered by first occurrence. -/
def group_by_dir (filepaths : List SPath) : List (List String × Finset String) :=
  groupFold filepaths []

/-- The loop building `source_files_by_config_file`: for each directory
group, look up the directory's assigned config file (`none` models the
`KeyError` raised by `config_files.source_dir_to_config_file[source_dir]`
when the directory has no assignment) and union the directory's files,
re-joined to full paths, into the bucket keyed by that config file. -/
def sourceFold (assignment : List (List String × String)) :
    List (List String × Finset String) → List (String × Finset SPath) →
    Option (List (String × Finset SPath))
  | [], m => some m
  | e :: es, m =>
      match lookupA assignment e.1 with
      | none => none
      | some c => sourceFold assignment es (bucketAdd m c (e.2.image (fun b => SPath.mk e.1 b)))

/-- Modelled from the spec: the engine's `DigestSubset` with
`PathGlobs([config_file])` followed by `digest_to_snapshot` (section 4.3
step 4) is not part of this source tree; it narrows a snapshot's file
list to just the named config file. -/
def digestSubset (snapshotFiles : List String) (config : String) : List String :=
  snapshotFiles.filter (fun f => f = config)

/-- `PartitionInfo` of rules.py: the tool classpath entries, the narrowed
config snapshot (as its file list) and the extra immutable input digests
(virtual root name, digest id). -/
structure PartitionInfo where
  classpath_entries : List String
  config_snapshot : List String
  extra_immutable_input_digests : List (String × Nat)
deriving DecidableEq, Repr

/-- A `Partition` of `pants.core.util_rules.partitions`: the file set
(Python builds `tuple(files)` from a set, so only the set is meaningful)
plus its metadata. -/
structure Partition where
  elements : Finset SPath
  metadata : PartitionInfo
deriving DecidableEq

/-- The observable engine requests `partition_scalafmt` issues, in
program order: the concurrent classpath materialisation and config-file
gathering, then one digest-subset request per distinct config file. -/
inductive Effect where
  | fetchClasspath : Effect
  | resolveConfigs : Effect
  | subsetDigest : String → Effect
deriving DecidableEq, Repr

/-- Outcome of one `partition_scalafmt` run: the partition list (`none`
models an uncaught `KeyError`) and the engine requests issued. -/
structure PartitionRun where
  partitions : Option (List Partition)
  effects : List Effect
deriving DecidableEq

/-- The partition built for one bucket `(config file, files)`: the body
of the generator in the final `Partitions(...)` expression of
`partition_scalafmt`, with the zipped `config_file_snapshots` entry
expressed as `digestSubset snapshotFiles`. -/
def mkPartition (classpathEntries : List String) (classpathDigest : Nat)
    (snapshotFiles : List String) (e : String × Finset SPath) : Partition :=
  { elements := e.2
  , metadata :=
    { classpath_entries := classpathEntries
    , config_snapshot := digestSubset snapshotFiles e.1
    , extra_immutable_input_digests := [("__toolcp", classpathDigest)] } }

/-- The `partition_scalafmt` rule.  Parameters stand for the rule's
collaborator-supplied data: `skip` is `tool.skip`; `classpathEntries` is
`tool_classpath.classpath_entries("__toolcp")`; `classpathDigest` is
`tool_classpath.digest`; `snapshotFiles` is `config_files.snapshot.files`;
`assignment` is `config_files.source_dir_to_config_file` (possibly
lacking entries for orphan directories, per the resolver contract of
spec section 4.2). -/
def partition_scalafmt (skip : Bool) (filepaths : List SPath)
    (classpathEntries : List String) (classpathDigest : Nat)
    (snapshotFiles : List String) (assignment : List (List String × String)) :
    PartitionRun :=
  if skip then { partitions := some [], effects := [] }
  else
    match sourceFold assignment (group_by_dir filepaths) [] with
    | none =>
        { partitions := none
        , effects := [Effect.fetchClasspath, Effect.resolveConfigs] }
    | some buckets =>
        { partitions := some (buckets.map (mkPartition classpathEntries classpathDigest snapshotFiles))
        , effects := [Effect.fetchClasspath, Effect.resolveConfigs]
            ++ buckets.map (fun e => Effect.subsetDigest e.1) }

/-! ### Association-list and bucket lemmas -/

set_option linter.unusedSectionVars false

section BucketLemmas

variable {κ α : Type} [DecidableEq κ] [DecidableEq α]

theorem lookupA_cons_self {k : κ} {v : β} {m : List (κ × β)} :
    lookupA ((k, v) :: m) k = some v := by
  simp [lookupA]

theorem lookupA_cons_ne {k k' : κ} {v : β} {m : List (κ × β)} (hk : k ≠ k') :
    lookupA ((k', v) :: m) k = lookupA m k := by
  simp [lookupA, hk]

theorem bucketAdd_cons_self {k : κ} {s xs : Finset α} {m : List (κ × Finset α)} :
    bucketAdd ((k, s) :: m) k xs = (k, s ∪ xs) :: m := by
  simp [bucketAdd]

theorem bucketAdd_cons_ne {k k' : κ} {s xs : Finset α} {m : List (κ × Finset α)}
    (hk : k ≠ k') :
    bucketAdd ((k', s) :: m) k xs = (k', s) :: bucketAdd m k xs := by
  simp [bucketAdd, hk]

theorem memB_nil {c : κ} {x : α} : ¬ memB ([] : List (κ × Finset α)) c x := by
  rintro ⟨s, hs, _⟩
  exact absurd hs (List.not_mem_nil _)

theorem memB_cons {k' : κ} {s : Finset α} {m : List (κ × Finset α)} {c : κ} {x : α} :
    memB ((k', s) :: m) c x ↔ (c = k' ∧ x ∈ s) ∨ memB m c x := by
  constructor
  · rintro ⟨t, ht, hx⟩
    rcases List.mem_cons.1 ht with h | h
    · rw [Prod.mk.injEq] at h
      exact Or.inl ⟨h.1, h.2 ▸ hx⟩
    · exact Or.inr ⟨t, h, hx⟩
  · rintro (⟨rfl, hx⟩ | ⟨t, ht, hx⟩)
    · exact ⟨s, List.mem_cons_self _ _, hx⟩
    · exact ⟨t, List.mem_cons_of_mem _ ht, hx⟩

theorem memB_bucketAdd {m : List (κ × Finset α)} {k c : κ} {xs : Finset α} {x : α} :
    memB (bucketAdd m k xs) c x ↔ memB m c x ∨ (c = k ∧ x ∈ xs) := by
  induction m with
  | nil =>
      rw [show bucketAdd ([] : List (κ × Finset α)) k xs = [(k, xs)] from rfl]
      simp only [memB_cons]
      constructor
      · rintro (⟨rfl, hx⟩ | h)
        · exact Or.inr ⟨rfl, hx⟩
        · exact absurd h memB_nil
      · rintro (h | ⟨rfl, hx⟩)
        · exact absurd h memB_nil
        · exact Or.inl ⟨rfl, hx⟩
  | cons e m ih =>
      obtain ⟨k', s⟩ := e
      by_cases hk : k = k'
      · subst hk
        rw [bucketAdd_cons_self]
        simp only [memB_cons, Finset.mem_union]
        tauto
      · rw [bucketAdd_cons_ne hk]
        simp only [memB_cons, ih]
        tauto

theorem mem_keys_bucketAdd {m : List (κ × Finset α)} {k c : κ} {xs : Finset α} :
    c ∈ (bucketAdd m k xs).map Prod.fst ↔ c ∈ m.map Prod.fst ∨ c = k := by
  induction m with
  | nil => simp [bucketAdd]
  | cons e m ih =>
      obtain ⟨k', s⟩ := e
      by_cases hk : k = k'
      · subst hk
        rw [bucketAdd_cons_self]
        simp only [List.map_cons, List.mem_cons]
        tauto
      · rw [bucketAdd_cons_ne hk]
        simp only [List.map_cons, List.mem_cons, ih]
        tauto

theorem nodup_keys_bucketAdd {m : List (κ × Finset α)} {k : κ} {xs : Finset α}
    (h : (m.map Prod.fst).Nodup) : ((bucketAdd m k xs).map Prod.fst).Nodup := by
  induction m with
  | nil => simp [bucketAdd]
  | cons e m ih =>
      obtain ⟨k', s⟩ := e
      simp only [List.map_cons, List.nodup_cons] at h
      by_cases hk : k = k'
      · subst hk
        rw [bucketAdd_cons_self]
        simp only [List.map_cons, List.nodup_cons]
        exact h
      · rw [bucketAdd_cons_ne hk]
        simp only [List.map_cons, List.nodup_cons]
        refine ⟨fun hc => ?_, ih h.2⟩
        rcases mem_keys_bucketAdd.1 hc with hc | hc
        · exact h.1 hc
        · exact hk hc.symm

theorem bucketAdd_eq_self {m : List (κ × Finset α)} {k : κ} {s xs : Finset α}
    (hl : lookupA m k = some s) (hsub : xs ⊆ s) : bucketAdd m k xs = m := by
  induction m with
  | nil => simp [lookupA] at hl
  | cons e m ih =>
      obtain ⟨k', s'⟩ := e
      by_cases hk : k = k'
      · subst hk
        rw [lookupA_cons_self, Option.some.injEq] at hl
        subst hl
        rw [bucketAdd_cons_self, Finset.union_eq_left.2 hsub]
      · rw [lookupA_cons_ne hk] at hl
        rw [bucketAdd_cons_ne hk, ih hl]

theorem lookupA_mem {β : Type} {m : List (κ × β)} {k : κ} {v : β}
    (h : lookupA m k = some v) : (k, v) ∈ m := by
  induction m with
  | nil => simp [lookupA] at h
  | cons e m ih =>
      obtain ⟨k', v'⟩ := e
      by_cases hk : k = k'
      · subst hk
        rw [lookupA_cons_self, Option.some.injEq] at h
        subst h
        exact List.mem_cons_self _ _
      · rw [lookupA_cons_ne hk] at h
        exact List.mem_cons_of_mem _ (ih h)

theorem lookupA_eq_of_mem_nodup {β : Type} {m : List (κ × β)} {k : κ} {v : β}
    (hnd : (m.map Prod.fst).Nodup) (h : (k, v) ∈ m) : lookupA m k = some v := by
  induction m with
  | nil => exact absurd h (List.not_mem_nil _)
  | cons e m ih =>
      obtain ⟨k', v'⟩ := e
      simp only [List.map_cons, List.nodup_cons] at hnd
      rcases List.mem_cons.1 h with he | he
      · rw [Prod.mk.injEq] at he
        rw [he.1, he.2, lookupA_cons_self]
      · have hk : k ≠ k' := by
          rintro rfl
          exact hnd.1 (List.mem_map_of_mem Prod.fst he)
        rw [lookupA_cons_ne hk]
        exact ih hnd.2 he

end BucketLemmas

/-! ### Characterisation of the directory-grouping fold -/

theorem memB_groupFold {fp : List SPath} {m : List (List String × Finset String)}
    {d : List String} {b : String} :
    memB (groupFold fp m) d b ↔ memB m d b ∨ SPath.mk d b ∈ fp := by
  induction fp generalizing m with
  | nil => simp [groupFold]
  | cons p ps ih =>
      rw [show groupFold (p :: ps) m = groupFold ps (bucketAdd m p.dir {p.base}) from rfl, ih,
        memB_bucketAdd]
      have hmk : SPath.mk d b = p ↔ d = p.dir ∧ b = p.base := by
        cases p
        simp [SPath.mk.injEq]
      simp only [List.mem_cons, hmk, Finset.mem_singleton]
      tauto

theorem mem_keys_groupFold {fp : List SPath} {m : List (List String × Finset String)}
    {d : List String} :
    d ∈ (groupFold fp m).map Prod.fst ↔ d ∈ m.map Prod.fst ∨ ∃ p ∈ fp, p.dir = d := by
  induction fp generalizing m with
  | nil => simp [groupFold]
  | cons p ps ih =>
      rw [show groupFold (p :: ps) m = groupFold ps (bucketAdd m p.dir {p.base}) from rfl, ih,
        mem_keys_bucketAdd]
      simp only [List.mem_cons]
      constructor
      · rintro ((h | h) | ⟨q, hq, hd⟩)
        · exact Or.inl h
        · exact Or.inr ⟨p, Or.inl rfl, h.symm⟩
        · exact Or.inr ⟨q, Or.inr hq, hd⟩
      · rintro (h | ⟨q, hq | hq, hd⟩)
        · exact Or.inl (Or.inl h)
        · exact Or.inl (Or.inr (hq ▸ hd.symm))
        · exact Or.inr ⟨q, hq, hd⟩

theorem nodup_keys_groupFold {fp : List SPath} {m : List (List String × Finset String)}
    (h : (m.map Prod.fst).Nodup) : ((groupFold fp m).map Prod.fst).Nodup := by
  induction fp generalizing m with
  | nil => exact h
  | cons p ps ih =>
      exact ih (nodup_keys_bucketAdd h)

theorem groupFold_append {l₁ l₂ : List SPath} {m : List (List String × Finset String)} :
    groupFold (l₁ ++ l₂) m = groupFold l₂ (groupFold l₁ m) := by
  induction l₁ generalizing m with
  | nil => rfl
  | cons p ps ih => exact ih

theorem memB_group_by_dir {fp : List SPath} {d : List String} {b : String} :
    memB (group_by_dir fp) d b ↔ SPath.mk d b ∈ fp := by
  rw [group_by_dir, memB_groupFold]
  exact or_iff_right memB_nil

theorem mem_keys_group_by_dir {fp : List SPath} {d : List String} :
    d ∈ (group_by_dir fp).map Prod.fst ↔ ∃ p ∈ fp, p.dir = d := by
  rw [group_by_dir, mem_keys_groupFold]
  simp

theorem nodup_keys_group_by_dir {fp : List SPath} :
    ((group_by_dir fp).map Prod.fst).Nodup :=
  nodup_keys_groupFold List.nodup_nil

/-! ### Characterisation of the config-file bucketing fold -/

theorem sourceFold_isSome {asg : List (List String × String)}
    {gs : List (List String × Finset String)} {m : List (String × Finset SPath)}
    (h : ∀ e ∈ gs, (lookupA asg e.1).isSome) :
    ∃ bs, sourceFold asg gs m = some bs := by
  induction gs generalizing m with
  | nil => exact ⟨m, rfl⟩
  | cons e es ih =>
      obtain ⟨c, hc⟩ := Option.isSome_iff_exists.1 (h e (List.mem_cons_self _ _))
      rw [show sourceFold asg (e :: es) m =
          match lookupA asg e.1 with
          | none => none
          | some c => sourceFold asg es (bucketAdd m c (e.2.image (fun b => SPath.mk e.1 b)))
        from rfl, hc]
      exact ih (fun e' he' => h e' (List.mem_cons_of_mem _ he'))

theorem sourceFold_cons_some {asg : List (List String × String)}
    {e : List String × Finset String} {es : List (List String × Finset String)}
    {m : List (String × Finset SPath)} {c : String} (hc : lookupA asg e.1 = some c) :
    sourceFold asg (e :: es) m =
      sourceFold asg es (bucketAdd m c (e.2.image (fun b => SPath.mk e.1 b))) := by
  rw [show sourceFold asg (e :: es) m =
      match lookupA asg e.1 with
      | none => none
      | some c => sourceFold asg es (bucketAdd m c (e.2.image (fun b => SPath.mk e.1 b)))
    from rfl, hc]

theorem memB_sourceFold {asg : List (List String × String)}
    {gs : List (List String × Finset String)} {m : List (String × Finset SPath)}
    {bs : List (String × Finset SPath)}
    (h : sourceFold asg gs m = some bs) {c : String} {x : SPath} :
    memB bs c x ↔ memB m c x ∨ ∃ e ∈ gs, lookupA asg e.1 = some c ∧ x.dir = e.1 ∧ x.base ∈ e.2 := by
  induction gs generalizing m with
  | nil =>
      obtain rfl : m = bs := by simpa [sourceFold] using h
      simp
  | cons e es ih =>
      rcases hc : lookupA asg e.1 with _ | c'
      · rw [show sourceFold asg (e :: es) m =
            match lookupA asg e.1 with
            | none => none
            | some c => sourceFold asg es (bucketAdd m c (e.2.image (fun b => SPath.mk e.1 b)))
          from rfl, hc] at h
        exact absurd h (by simp)
      · rw [sourceFold_cons_some hc] at h
        rw [ih h, memB_bucketAdd]
        have himg : x ∈ e.2.image (fun b => SPath.mk e.1 b) ↔ x.dir = e.1 ∧ x.base ∈ e.2 := by
          cases x with
          | mk xd xb =>
              simp only [Finset.mem_image, SPath.mk.injEq]
              constructor
              · rintro ⟨b, hb, hbd, hbb⟩
                exact ⟨hbd.symm, hbb ▸ hb⟩
              · rintro ⟨hd, hb⟩
                exact ⟨xb, hb, hd.symm, rfl⟩
        simp only [List.mem_cons, himg]
        constructor
        · rintro ((h | ⟨rfl, hd, hb⟩) | ⟨e', he', hl, hd, hb⟩)
          · exact Or.inl h
          · exact Or.inr ⟨e, Or.inl rfl, hc, hd, hb⟩
          · exact Or.inr ⟨e', Or.inr he', hl, hd, hb⟩
        · rintro (h | ⟨e', he' | he', hl, hd, hb⟩)
          · exact Or.inl (Or.inl h)
          · subst he'
            rw [hc, Option.some.injEq] at hl
            exact Or.inl (Or.inr ⟨hl.symm, hd, hb⟩)
          · exact Or.inr ⟨e', he', hl, hd, hb⟩

theorem mem_keys_sourceFold {asg : List (List String × String)}
    {gs : List (List String × Finset String)} {m : List (String × Finset SPath)}
    {bs : List (String × Finset SPath)}
    (h : sourceFold asg gs m = some bs) {c : String} :
    c ∈ bs.map Prod.fst ↔ c ∈ m.map Prod.fst ∨ ∃ e ∈ gs, lookupA asg e.1 = some c := by
  induction gs generalizing m with
  | nil =>
      obtain rfl : m = bs := by simpa [sourceFold] using h
      simp
  | cons e es ih =>
      rcases hc : lookupA asg e.1 with _ | c'
      · rw [show sourceFold asg (e :: es) m =
            match lookupA asg e.1 with
            | none => none
            | some c => sourceFold asg es (bucketAdd m c (e.2.image (fun b => SPath.mk e.1 b)))
          from rfl, hc] at h
        exact absurd h (by simp)
      · rw [sourceFold_cons_some hc] at h
        rw [ih h, mem_keys_bucketAdd]
        simp only [List.mem_cons]
        constructor
        · rintro ((h | rfl) | ⟨e', he', hl⟩)
          · exact Or.inl h
          · exact Or.inr ⟨e, Or.inl rfl, hc⟩
          · exact Or.inr ⟨e', Or.inr he', hl⟩
        · rintro (h | ⟨e', he' | he', hl⟩)
          · exact Or.inl (Or.inl h)
          · subst he'
            rw [hc, Option.some.injEq] at hl
            exact Or.inl (Or.inr hl.symm)
          · exact Or.inr ⟨e', he', hl⟩

theorem nodup_keys_sourceFold {asg : List (List String × String)}
    {gs : List (List String × Finset String)} {m : List (String × Finset SPath)}
    {bs : List (String × Finset SPath)}
    (h : sourceFold asg gs m = some bs) (hnd : (m.map Prod.fst).Nodup) :
    (bs.map Prod.fst).Nodup := by
  induction gs generalizing m with
  | nil =>
      obtain rfl : m = bs := by simpa [sourceFold] using h
      exact hnd
  | cons e es ih =>
      rcases hc : lookupA asg e.1 with _ | c'
      · rw [show sourceFold asg (e :: es) m =
            match lookupA asg e.1 with
            | none => none
            | some c => sourceFold asg es (bucketAdd m c (e.2.image (fun b => SPath.mk e.1 b)))
          from rfl, hc] at h
        exact absurd h (by simp)
      · rw [sourceFold_cons_some hc] at h
        exact ih h (nodup_keys_bucketAdd hnd)


/-! ### Derived notions used by the stated properties -/

/-- Union of the file sets of a list of partitions. -/
def unionFS (ps : List Partition) : Finset SPath :=
  ps.foldr (fun p acc => p.elements ∪ acc) ∅

theorem mem_unionFS {ps : List Partition} {x : SPath} :
    x ∈ unionFS ps ↔ ∃ p ∈ ps, x ∈ p.elements := by
  induction ps with
  | nil => simp [unionFS]
  | cons p ps ih =>
      simp only [unionFS, List.foldr_cons, Finset.mem_union, List.mem_cons]
      rw [show ps.foldr (fun p acc => p.elements ∪ acc) ∅ = unionFS ps from rfl, ih]
      constructor
      · rintro (h | ⟨q, hq, hx⟩)
        · exact ⟨p, Or.inl rfl, h⟩
        · exact ⟨q, Or.inr hq, hx⟩
      · rintro ⟨q, hq | hq, hx⟩
        · exact Or.inl (hq ▸ hx)
        · exact Or.inr ⟨q, hq, hx⟩

/-- The set of config files assigned to at least one directory holding
an input file. -/
def assignedConfigs (filepaths : List SPath) (assignment : List (List String × String)) :
    Finset String :=
  (filepaths.toFinset.image SPath.dir).biUnion (fun d => (lookupA assignment d).toFinset)

theorem mem_assignedConfigs {filepaths : List SPath} {assignment : List (List String × String)}
    {c : String} :
    c ∈ assignedConfigs filepaths assignment ↔
      ∃ p ∈ filepaths, lookupA assignment p.dir = some c := by
  simp only [assignedConfigs, Finset.mem_biUnion, Finset.mem_image, List.mem_toFinset,
    Option.mem_toFinset, Option.mem_def]
  constructor
  · rintro ⟨d, ⟨p, hp, rfl⟩, hc⟩
    exact ⟨p, hp, hc⟩
  · rintro ⟨p, hp, hc⟩
    exact ⟨p.dir, ⟨p, hp, rfl⟩, hc⟩

theorem filter_eq_singleton_of_nodup {l : List String} {c : String}
    (hnd : l.Nodup) (hc : c ∈ l) : l.filter (fun f => f = c) = [c] := by
  induction l with
  | nil => exact absurd hc (List.not_mem_nil _)
  | cons a l ih =>
      rw [List.nodup_cons] at hnd
      rcases List.mem_cons.1 hc with rfl | hc
      · have hno : l.filter (fun f => f = c) = [] := by
          rw [List.filter_eq_nil_iff]
          intro b hb
          simp only [decide_eq_true_eq]
          rintro rfl
          exact hnd.1 hb
        simp [List.filter_cons, hno]
      · have hac : ¬ (a = c) := by
          rintro rfl
          exact hnd.1 hc
        simp only [List.filter_cons, decide_eq_true_eq, if_neg hac]
        exact ih hnd.2 hc

/-- Success-shape of a non-skip `partition_scalafmt` run: its partitions
are exactly the bucketing fold's buckets, mapped through `mkPartition`. -/
theorem partition_scalafmt_false_partitions {fp : List SPath} {cp : List String} {dg : Nat}
    {sn : List String} {asg : List (List String × String)} :
    (partition_scalafmt false fp cp dg sn asg).partitions =
      (sourceFold asg (group_by_dir fp) []).map
        (fun bs => bs.map (mkPartition cp dg sn)) := by
  rw [partition_scalafmt]
  rcases h : sourceFold asg (group_by_dir fp) [] with _ | bs <;> simp [h]

/-! ### Shared consequences of the bucketing fold -/

theorem sourceFold_keys_char {fp : List SPath} {asg : List (List String × String)}
    {bs : List (String × Finset SPath)}
    (hs : sourceFold asg (group_by_dir fp) [] = some bs) {c : String} :
    c ∈ bs.map Prod.fst ↔ ∃ p ∈ fp, lookupA asg p.dir = some c := by
  rw [mem_keys_sourceFold hs]
  simp only [List.map_nil, List.not_mem_nil, false_or]
  constructor
  · rintro ⟨e, he, hl⟩
    obtain ⟨p, hp, hd⟩ := mem_keys_group_by_dir.1 (List.mem_map_of_mem Prod.fst he)
    refine ⟨p, hp, ?_⟩
    rw [hd]
    exact hl
  · rintro ⟨p, hp, hl⟩
    obtain ⟨s, hmem, _⟩ := memB_group_by_dir.2 (show SPath.mk p.dir p.base ∈ fp from hp)
    exact ⟨(p.dir, s), hmem, hl⟩

theorem bucket_config_of_memB {fp : List SPath} {asg : List (List String × String)}
    {bs : List (String × Finset SPath)}
    (hs : sourceFold asg (group_by_dir fp) [] = some bs) {c : String} {x : SPath}
    (h : memB bs c x) : lookupA asg x.dir = some c := by
  rw [memB_sourceFold hs] at h
  rcases h with h | ⟨e, _, hl, hd, _⟩
  · exact absurd h memB_nil
  · rw [hd]
    exact hl

theorem bucket_mem_input {fp : List SPath} {asg : List (List String × String)}
    {bs : List (String × Finset SPath)}
    (hs : sourceFold asg (group_by_dir fp) [] = some bs) {c : String} {x : SPath}
    (h : memB bs c x) : x ∈ fp := by
  rw [memB_sourceFold hs] at h
  rcases h with h | ⟨e, he, _, hd, hb⟩
  · exact absurd h memB_nil
  · have hm : memB (group_by_dir fp) x.dir x.base := by
      refine ⟨e.2, ?_, hb⟩
      rw [hd]
      exact he
    have := memB_group_by_dir.1 hm
    cases x
    exact this

/-! ### The claims -/

/-- Claim C1: for every input set of file paths and every config-file
assignment under which `partition_scalafmt` returns partitions, the
number of partitions equals the number of distinct config files assigned
to at least one input directory (not the number of input directories);
and zero input files yields zero partitions, not an error. -/
theorem partition_count_eq_distinct_configs :
    (∀ (fp : List SPath) (cp : List String) (dg : Nat) (sn : List String)
        (asg : List (List String × String)) (ps : List Partition),
        (partition_scalafmt false fp cp dg sn asg).partitions = some ps →
        ps.length = (assignedConfigs fp asg).card)
  ∧ (∀ (cp : List String) (dg : Nat) (sn : List String)
        (asg : List (List String × String)),
        (partition_scalafmt false [] cp dg sn asg).partitions = some []) := by
  constructor
  · intro fp cp dg sn asg ps h
    rw [partition_scalafmt_false_partitions] at h
    rcases hs : sourceFold asg (group_by_dir fp) [] with _ | bs
    · rw [hs] at h
      exact absurd h (by simp)
    · rw [hs, Option.map_some', Option.some.injEq] at h
      subst h
      have hnd : (bs.map Prod.fst).Nodup := nodup_keys_sourceFold hs List.nodup_nil
      have hset : (bs.map Prod.fst).toFinset = assignedConfigs fp asg := by
        ext c
        rw [List.mem_toFinset, sourceFold_keys_char hs, mem_assignedConfigs]
      rw [List.length_map, ← List.length_map bs Prod.fst,
        ← List.toFinset_card_of_nodup hnd, hset]
  · intro cp dg sn asg
    rfl

/-- Claim C2 (amended): when every directory containing an input file has
a config-file assignment, `partition_scalafmt` returns partitions and the
union of their file sets is the full input set.  (When some directory
lacks an assignment, the rule raises `KeyError` instead of excluding that
directory's files; see the counterexample.) -/
theorem partition_union_eq_input {fp : List SPath} {cp : List String} {dg : Nat}
    {sn : List String} {asg : List (List String × String)}
    (htot : ∀ p ∈ fp, (lookupA asg p.dir).isSome) :
    (partition_scalafmt false fp cp dg sn asg).partitions ≠ none ∧
    ∀ ps, (partition_scalafmt false fp cp dg sn asg).partitions = some ps →
      unionFS ps = fp.toFinset := by
  have hgs : ∀ e ∈ group_by_dir fp, (lookupA asg e.1).isSome := by
    intro e he
    obtain ⟨p, hp, hd⟩ := mem_keys_group_by_dir.1 (List.mem_map_of_mem Prod.fst he)
    rw [← hd]
    exact htot p hp
  obtain ⟨bs, hs⟩ := sourceFold_isSome hgs
  constructor
  · rw [partition_scalafmt_false_partitions, hs]
    simp
  · intro ps h
    rw [partition_scalafmt_false_partitions, hs, Option.map_some', Option.some.injEq] at h
    subst h
    ext x
    rw [mem_unionFS, List.mem_toFinset]
    constructor
    · rintro ⟨q, hq, hx⟩
      obtain ⟨e, he, rfl⟩ := List.mem_map.1 hq
      exact bucket_mem_input hs ⟨e.2, he, hx⟩
    · intro hx
      obtain ⟨s, hmem, hb⟩ := memB_group_by_dir.2 (show SPath.mk x.dir x.base ∈ fp from hx)
      obtain ⟨c, hc⟩ := Option.isSome_iff_exists.1 (hgs (x.dir, s) hmem)
      have hm : memB bs c x := by
        rw [memB_sourceFold hs]
        exact Or.inr ⟨(x.dir, s), hmem, hc, rfl, hb⟩
      obtain ⟨t, ht, hxt⟩ := hm
      exact ⟨mkPartition cp dg sn (c, t), List.mem_map_of_mem _ ht, hxt⟩

/-- Counterexample to claim C2 as stated: input `a/X.scala` (assigned
the root config) plus `b/Y.scala` whose directory has no assignment.
The claim predicts partitions whose union is the input minus the
orphaned file; the code instead hits a `KeyError` on the unguarded
`source_dir_to_config_file[source_dir]` lookup and returns no partitions
at all. -/
theorem partition_union_orphan_counterexample :
    (partition_scalafmt false [⟨["a"], "X.scala"⟩, ⟨["b"], "Y.scala"⟩] ["scalafmt.jar"] 3
      [".scalafmt.conf"] [(["a"], ".scalafmt.conf")]).partitions = none := by
  decide

/-- Claim C3: the file sets of the partitions returned by a single
`partition_scalafmt` run are pairwise disjoint. -/
theorem partition_filesets_pairwise_disjoint {fp : List SPath} {cp : List String} {dg : Nat}
    {sn : List String} {asg : List (List String × String)} {ps : List Partition}
    (h : (partition_scalafmt false fp cp dg sn asg).partitions = some ps) :
    ps.Pairwise (fun p q => Disjoint p.elements q.elements) := by
  rw [partition_scalafmt_false_partitions] at h
  rcases hs : sourceFold asg (group_by_dir fp) [] with _ | bs
  · rw [hs] at h
    exact absurd h (by simp)
  · rw [hs, Option.map_some', Option.some.injEq] at h
    subst h
    have hnd : (bs.map Prod.fst).Nodup := nodup_keys_sourceFold hs List.nodup_nil
    have hpair : bs.Pairwise (fun a b => a.1 ≠ b.1) := List.pairwise_map.1 hnd
    refine List.pairwise_map.2 (hpair.imp_of_mem ?_)
    intro a b ha hb hne
    rw [Finset.disjoint_left]
    intro x hxa hxb
    have h1 : lookupA asg x.dir = some a.1 := bucket_config_of_memB hs ⟨a.2, ha, hxa⟩
    have h2 : lookupA asg x.dir = some b.1 := bucket_config_of_memB hs ⟨b.2, hb, hxb⟩
    rw [h1, Option.some.injEq] at h2
    exact hne h2

/-- Claim C4: every returned partition's config snapshot holds exactly
one file, namely the config file assigned to each directory that
contributed files to the partition.  The hypotheses are the resolver
contract of spec section 4.2 (every assigned config file exists in the
gathered snapshot) and the snapshot invariant that its file list has no
duplicates. -/
theorem partition_config_snapshot_exactly_one {fp : List SPath} {cp : List String} {dg : Nat}
    {sn : List String} {asg : List (List String × String)} {ps : List Partition}
    (hnd : sn.Nodup) (hres : ∀ e ∈ asg, e.2 ∈ sn)
    (h : (partition_scalafmt false fp cp dg sn asg).partitions = some ps) :
    ∀ p ∈ ps, p.metadata.config_snapshot.length = 1 ∧
      ∀ x ∈ p.elements,
        lookupA asg x.dir = some p.metadata.config_snapshot.headI := by
  rw [partition_scalafmt_false_partitions] at h
  rcases hs : sourceFold asg (group_by_dir fp) [] with _ | bs
  · rw [hs] at h
    exact absurd h (by simp)
  · rw [hs, Option.map_some', Option.some.injEq] at h
    subst h
    intro p hp
    obtain ⟨e, he, rfl⟩ := List.mem_map.1 hp
    have hkey : e.1 ∈ bs.map Prod.fst := List.mem_map_of_mem Prod.fst he
    obtain ⟨q, _, hql⟩ := (sourceFold_keys_char hs).1 hkey
    have hsn : e.1 ∈ sn := hres _ (lookupA_mem hql)
    have hone : digestSubset sn e.1 = [e.1] := filter_eq_singleton_of_nodup hnd hsn
    constructor
    · show (digestSubset sn e.1).length = 1
      rw [hone]
      rfl
    · intro x hx
      show lookupA asg x.dir = some (digestSubset sn e.1).headI
      rw [hone]
      exact bucket_config_of_memB hs ⟨e.2, he, hx⟩

/-- Evaluation of the code at claim C5's failing input: a single file
`src/c/D.scala` whose directory has no entry in the config-file
assignment (the warn/ignore case of spec section 4.2).  The claim says
`partition_scalafmt` succeeds and silently contributes no files for that
directory; the code instead raises `KeyError` (no partition set is
produced) after the classpath fetch and config resolution. -/
theorem partition_orphan_dir_raises :
    (partition_scalafmt false [⟨["src", "c"], "D.scala"⟩] ["scalafmt.jar"] 7
        [".scalafmt.conf"] []).partitions = none ∧
    (partition_scalafmt false [⟨["src", "c"], "D.scala"⟩] ["scalafmt.jar"] 7
        [".scalafmt.conf"] []).effects =
      [Effect.fetchClasspath, Effect.resolveConfigs] := by
  decide

/-- Claim C6: with the tool's skip flag set, `partition_scalafmt`
returns an empty partition set immediately: no classpath fetch, no
config resolution, no digest subsetting, hence no tool invocation,
regardless of the input. -/
theorem partition_skip_fast_path (fp : List SPath) (cp : List String) (dg : Nat)
    (sn : List String) (asg : List (List String × String)) :
    partition_scalafmt true fp cp dg sn asg = { partitions := some [], effects := [] } :=
  rfl

/-- Claim C9: every partition of a single run carries the identical
classpath entries and the identical extra immutable input mapping, which
binds the fixed virtual root name `__toolcp` to the one shared toolchain
digest. -/
theorem partition_shared_toolchain {fp : List SPath} {cp : List String} {dg : Nat}
    {sn : List String} {asg : List (List String × String)} {ps : List Partition}
    (h : (partition_scalafmt false fp cp dg sn asg).partitions = some ps) :
    ∀ p ∈ ps, p.metadata.classpath_entries = cp ∧
      p.metadata.extra_immutable_input_digests = [("__toolcp", dg)] := by
  rw [partition_scalafmt_false_partitions] at h
  rcases hs : sourceFold asg (group_by_dir fp) [] with _ | bs
  · rw [hs] at h
    exact absurd h (by simp)
  · rw [hs, Option.map_some', Option.some.injEq] at h
    subst h
    intro p hp
    obtain ⟨e, _, rfl⟩ := List.mem_map.1 hp
    exact ⟨rfl, rfl⟩

theorem group_by_dir_lookup_of_mem {fp : List SPath} {p : SPath} (hp : p ∈ fp) :
    ∃ s, lookupA (group_by_dir fp) p.dir = some s ∧ p.base ∈ s := by
  obtain ⟨s, hmem, hb⟩ := memB_group_by_dir.2 (show SPath.mk p.dir p.base ∈ fp from hp)
  exact ⟨s, lookupA_eq_of_mem_nodup nodup_keys_group_by_dir hmem, hb⟩

theorem group_by_dir_append_self {fp : List SPath} {p : SPath} (hp : p ∈ fp) :
    group_by_dir (fp ++ [p]) = group_by_dir fp := by
  obtain ⟨s, hl, hb⟩ := group_by_dir_lookup_of_mem hp
  rw [group_by_dir, groupFold_append]
  rw [show groupFold [p] (groupFold fp []) =
      bucketAdd (groupFold fp []) p.dir {p.base} from rfl]
  exact bucketAdd_eq_self hl (Finset.singleton_subset_iff.2 hb)

/-- Claim C10: a duplicated input path changes nothing: appending a path
that is already among the inputs yields the identical run (same
partitions, same requests), because directory membership and bucket
membership are accumulated into sets. -/
theorem partition_duplicate_input_collapsed {skip : Bool} {fp : List SPath}
    {cp : List String} {dg : Nat} {sn : List String}
    {asg : List (List String × String)} {p : SPath} (hp : p ∈ fp) :
    partition_scalafmt skip (fp ++ [p]) cp dg sn asg =
      partition_scalafmt skip fp cp dg sn asg := by
  cases skip
  · rw [partition_scalafmt, partition_scalafmt, group_by_dir_append_self hp]
  · rfl

/-! ### The fmt rule -/

/-- Outcome of executing a process: exit code and captured output
streams. -/
structure ExecOutcome where
  exit_code : Int
  stdout : String
  stderr : String
deriving DecidableEq, Repr

/-- The failure raised for a fallible process that exited non-zero: it
carries the tool's own exit code and output streams as the failure
detail. -/
structure ProcessExecutionFailure where
  exit_code : Int
  stdout : String
  stderr : String
deriving DecidableEq, Repr

/-- Modelled from the spec: the engine's
`fallible_to_exec_result_or_raise` is not part of this source tree.  Per
section 7, a non-zero exit from the formatter is surfaced as a
formatting failure carrying the tool's stderr/stdout verbatim; a zero
exit passes the result through. -/
def fallible_to_exec_result_or_raise (o : ExecOutcome) :
    Except ProcessExecutionFailure ExecOutcome :=
  if o.exit_code = 0 then Except.ok o
  else Except.error ⟨o.exit_code, o.stdout, o.stderr⟩

/-- The `JvmProcess` request built by `scalafmt_fmt`.  The input digest
is modelled as the set of paths it holds; per the spec (section 4.4) the
engine's `MergeDigests` is a path-level union of the merged snapshots
(content conflicts are outside this model). -/
structure JvmProcess where
  argv : List String
  classpath_entries : List String
  input_digest : Finset String
  output_files : List String
  extra_immutable_input_digests : List (String × Nat)
  use_nailgun : Bool
deriving DecidableEq

/-- The process `scalafmt_fmt` constructs for one batch: merged config
and source snapshots as the input digest, the config file path passed as
`--config=`, the batch's files as positional arguments, and the output
files declared equal to the input files.  `none` models the `IndexError`
of `config_snapshot.files[0]` on an empty config snapshot. -/
def scalafmt_fmt_process (info : PartitionInfo) (files : List String)
    (snapshot : Finset String) : Option JvmProcess :=
  match info.config_snapshot with
  | [] => none
  | c :: _ =>
      some { argv := ["org.scalafmt.cli.Cli", "--config=" ++ c, "--non-interactive"] ++ files
           , classpath_entries := info.classpath_entries
           , input_digest := info.config_snapshot.toFinset ∪ snapshot
           , output_files := files
           , extra_immutable_input_digests := info.extra_immutable_input_digests
           , use_nailgun := false }

/-- The `scalafmt_fmt` rule for one batch, parameterised by the external
tool's behaviour `exec`: build the process, execute it, and surface a
non-zero exit as a raised failure. -/
def scalafmt_fmt (info : PartitionInfo) (files : List String) (snapshot : Finset String)
    (exec : JvmProcess → ExecOutcome) :
    Option (Except ProcessExecutionFailure ExecOutcome) :=
  (scalafmt_fmt_process info files snapshot).map
    (fun proc => fallible_to_exec_result_or_raise (exec proc))

/-- One batch of the fmt goal: a partition's metadata together with its
files and source snapshot. -/
structure Batch where
  info : PartitionInfo
  files : List String
  snapshot : Finset String

/-- The dispatcher over partitions: each partition's batch is formatted
by its own rule invocation, a function only of that batch. -/
def dispatchPartitions (batches : List Batch) (exec : JvmProcess → ExecOutcome) :
    List (Option (Except ProcessExecutionFailure ExecOutcome)) :=
  batches.map (fun b => scalafmt_fmt b.info b.files b.snapshot exec)

/-- Claim C7: for a partition whose config snapshot is non-empty,
`scalafmt_fmt` merges the config snapshot with the source snapshot into
the invocation's input digest, passes the config file path as an
argument and the partition's files as positional arguments, and declares
the output files equal to the input files. -/
theorem scalafmt_fmt_invocation_shape {info : PartitionInfo} {files : List String}
    {snapshot : Finset String} {c : String} {cs : List String}
    (h : info.config_snapshot = c :: cs) :
    scalafmt_fmt_process info files snapshot =
      some { argv := ["org.scalafmt.cli.Cli", "--config=" ++ c, "--non-interactive"] ++ files
           , classpath_entries := info.classpath_entries
           , input_digest := info.config_snapshot.toFinset ∪ snapshot
           , output_files := files
           , extra_immutable_input_digests := info.extra_immutable_input_digests
           , use_nailgun := false } := by
  rw [scalafmt_fmt_process, h]

/-- Claim C8: a partition whose formatter invocation exits non-zero is
surfaced as a failure carrying the tool's own exit code, stdout and
stderr; and dispatch over partitions is independent, so one partition's
failure does not abort its siblings. -/
theorem scalafmt_fmt_failure_surfaced_and_independent :
    (∀ (info : PartitionInfo) (files : List String) (snapshot : Finset String)
        (exec : JvmProcess → ExecOutcome) (proc : JvmProcess),
        scalafmt_fmt_process info files snapshot = some proc →
        (exec proc).exit_code ≠ 0 →
        scalafmt_fmt info files snapshot exec =
          some (Except.error
            ⟨(exec proc).exit_code, (exec proc).stdout, (exec proc).stderr⟩))
  ∧ (∀ (bs cs : List Batch) (exec : JvmProcess → ExecOutcome),
        dispatchPartitions (bs ++ cs) exec =
          dispatchPartitions bs exec ++ dispatchPartitions cs exec) := by
  constructor
  · intro info files snapshot exec proc hproc hexit
    rw [scalafmt_fmt, hproc, Option.map_some', fallible_to_exec_result_or_raise,
      if_neg hexit]
  · intro bs cs exec
    rw [dispatchPartitions, List.map_append]
    rfl

/-! ### Concrete witnesses -/

/-- Witness for claim C1: two directories sharing one config file give
one partition, and one is the number of distinct assigned configs. -/
theorem partition_count_eq_distinct_configs_witness :
    ([{ elements := ({⟨["a"], "X.scala"⟩, ⟨["b"], "Y.scala"⟩} : Finset SPath)
      , metadata := { classpath_entries := ["cp.jar"], config_snapshot := ["conf"]
                    , extra_immutable_input_digests := [("__toolcp", 7)] } }] :
      List Partition).length =
      (assignedConfigs [⟨["a"], "X.scala"⟩, ⟨["b"], "Y.scala"⟩]
        [(["a"], "conf"), (["b"], "conf")]).card :=
  partition_count_eq_distinct_configs.1
    [⟨["a"], "X.scala"⟩, ⟨["b"], "Y.scala"⟩] ["cp.jar"] 7 ["conf"]
    [(["a"], "conf"), (["b"], "conf")]
    [{ elements := {⟨["a"], "X.scala"⟩, ⟨["b"], "Y.scala"⟩}
     , metadata := { classpath_entries := ["cp.jar"], config_snapshot := ["conf"]
                   , extra_immutable_input_digests := [("__toolcp", 7)] } }]
    (by decide)

/-- Witness for the amended claim C2 at a fully assigned input. -/
theorem partition_union_eq_input_witness :
    (partition_scalafmt false [⟨["a"], "X.scala"⟩] ["cp.jar"] 1 ["conf"]
        [(["a"], "conf")]).partitions ≠ none ∧
    unionFS [{ elements := ({⟨["a"], "X.scala"⟩} : Finset SPath)
             , metadata := { classpath_entries := ["cp.jar"], config_snapshot := ["conf"]
                           , extra_immutable_input_digests := [("__toolcp", 1)] } }] =
      ([⟨["a"], "X.scala"⟩] : List SPath).toFinset :=
  ⟨(@partition_union_eq_input [⟨["a"], "X.scala"⟩] ["cp.jar"] 1 ["conf"]
      [(["a"], "conf")] (by decide)).1,
   (@partition_union_eq_input [⟨["a"], "X.scala"⟩] ["cp.jar"] 1 ["conf"]
      [(["a"], "conf")] (by decide)).2
    [{ elements := {⟨["a"], "X.scala"⟩}
     , metadata := { classpath_entries := ["cp.jar"], config_snapshot := ["conf"]
                   , extra_immutable_input_digests := [("__toolcp", 1)] } }]
    (by decide)⟩

/-- Witness for claim C3: two partitions under distinct configs have
disjoint file sets. -/
theorem partition_filesets_pairwise_disjoint_witness :
    ([ { elements := ({⟨["a"], "X.scala"⟩} : Finset SPath)
       , metadata := { classpath_entries := [], config_snapshot := ["c1"]
                     , extra_immutable_input_digests := [("__toolcp", 0)] } }
     , { elements := ({⟨["b"], "Y.scala"⟩} : Finset SPath)
       , metadata := { classpath_entries := [], config_snapshot := ["c2"]
                     , extra_immutable_input_digests := [("__toolcp", 0)] } } ] :
      List Partition).Pairwise (fun p q => Disjoint p.elements q.elements) :=
  @partition_filesets_pairwise_disjoint
    [⟨["a"], "X.scala"⟩, ⟨["b"], "Y.scala"⟩] [] 0 ["c1", "c2"]
    [(["a"], "c1"), (["b"], "c2")]
    [ { elements := {⟨["a"], "X.scala"⟩}
      , metadata := { classpath_entries := [], config_snapshot := ["c1"]
                    , extra_immutable_input_digests := [("__toolcp", 0)] } }
    , { elements := {⟨["b"], "Y.scala"⟩}
      , metadata := { classpath_entries := [], config_snapshot := ["c2"]
                    , extra_immutable_input_digests := [("__toolcp", 0)] } } ]
    (by decide)

/-- Witness for claim C4 at a one-partition run: the config snapshot has
exactly one file and the contributing directory is assigned to it. -/
theorem partition_config_snapshot_exactly_one_witness :
    (["conf"] : List String).length = 1 ∧
    lookupA [(["a"], "conf")] ["a"] = some "conf" :=
  ⟨(@partition_config_snapshot_exactly_one [⟨["a"], "X.scala"⟩] ["cp.jar"] 2 ["conf"]
      [(["a"], "conf")]
      [{ elements := {⟨["a"], "X.scala"⟩}
       , metadata := { classpath_entries := ["cp.jar"], config_snapshot := ["conf"]
                     , extra_immutable_input_digests := [("__toolcp", 2)] } }]
      (by decide) (by decide) (by decide)
      { elements := {⟨["a"], "X.scala"⟩}
      , metadata := { classpath_entries := ["cp.jar"], config_snapshot := ["conf"]
                    , extra_immutable_input_digests := [("__toolcp", 2)] } }
      (by decide)).1,
   (@partition_config_snapshot_exactly_one [⟨["a"], "X.scala"⟩] ["cp.jar"] 2 ["conf"]
      [(["a"], "conf")]
      [{ elements := {⟨["a"], "X.scala"⟩}
       , metadata := { classpath_entries := ["cp.jar"], config_snapshot := ["conf"]
                     , extra_immutable_input_digests := [("__toolcp", 2)] } }]
      (by decide) (by decide) (by decide)
      { elements := {⟨["a"], "X.scala"⟩}
      , metadata := { classpath_entries := ["cp.jar"], config_snapshot := ["conf"]
                    , extra_immutable_input_digests := [("__toolcp", 2)] } }
      (by decide)).2 ⟨["a"], "X.scala"⟩ (by decide)⟩

/-- Witness for claim C9 at a concrete run. -/
theorem partition_shared_toolchain_witness :
    ({ elements := ({⟨["a"], "X.scala"⟩} : Finset SPath)
     , metadata := { classpath_entries := ["cp.jar"], config_snapshot := ["conf"]
                   , extra_immutable_input_digests := [("__toolcp", 9)] } } :
      Partition).metadata.classpath_entries = ["cp.jar"] ∧
    ({ elements := ({⟨["a"], "X.scala"⟩} : Finset SPath)
     , metadata := { classpath_entries := ["cp.jar"], config_snapshot := ["conf"]
                   , extra_immutable_input_digests := [("__toolcp", 9)] } } :
      Partition).metadata.extra_immutable_input_digests = [("__toolcp", 9)] :=
  @partition_shared_toolchain [⟨["a"], "X.scala"⟩] ["cp.jar"] 9 ["conf"]
    [(["a"], "conf")]
    [{ elements := {⟨["a"], "X.scala"⟩}
     , metadata := { classpath_entries := ["cp.jar"], config_snapshot := ["conf"]
                   , extra_immutable_input_digests := [("__toolcp", 9)] } }]
    (by decide)
    { elements := {⟨["a"], "X.scala"⟩}
    , metadata := { classpath_entries := ["cp.jar"], config_snapshot := ["conf"]
                  , extra_immutable_input_digests := [("__toolcp", 9)] } }
    (by decide)

/-- Witness for claim C10: duplicating the lone input path leaves the
run unchanged. -/
theorem partition_duplicate_input_collapsed_witness :
    partition_scalafmt false ([⟨["a"], "X.scala"⟩] ++ [⟨["a"], "X.scala"⟩]) ["cp.jar"] 4
        ["conf"] [(["a"], "conf")] =
      partition_scalafmt false [⟨["a"], "X.scala"⟩] ["cp.jar"] 4 ["conf"]
        [(["a"], "conf")] :=
  @partition_duplicate_input_collapsed false [⟨["a"], "X.scala"⟩] ["cp.jar"] 4 ["conf"]
    [(["a"], "conf")] ⟨["a"], "X.scala"⟩ (by decide)

/-- Witness for claim C7 at a concrete partition. -/
theorem scalafmt_fmt_invocation_shape_witness :
    scalafmt_fmt_process
        { classpath_entries := ["cp.jar"], config_snapshot := ["conf"]
        , extra_immutable_input_digests := [("__toolcp", 5)] }
        ["a/X.scala"] {"a/X.scala"} =
      some { argv := ["org.scalafmt.cli.Cli", "--config=conf", "--non-interactive", "a/X.scala"]
           , classpath_entries := ["cp.jar"]
           , input_digest := {"conf", "a/X.scala"}
           , output_files := ["a/X.scala"]
           , extra_immutable_input_digests := [("__toolcp", 5)]
           , use_nailgun := false } := by
  have h := @scalafmt_fmt_invocation_shape
    { classpath_entries := ["cp.jar"], config_snapshot := ["conf"]
    , extra_immutable_input_digests := [("__toolcp", 5)] }
    ["a/X.scala"] {"a/X.scala"} "conf" [] rfl
  rw [h]
  decide

/-- Witness for claim C8: a constantly failing tool is surfaced as an
error carrying its exit code and streams. -/
theorem scalafmt_fmt_failure_surfaced_witness :
    scalafmt_fmt
        { classpath_entries := ["cp.jar"], config_snapshot := ["conf"]
        , extra_immutable_input_digests := [("__toolcp", 6)] }
        ["a/X.scala"] {"a/X.scala"} (fun _ => ⟨1, "out", "err"⟩) =
      some (Except.error ⟨1, "out", "err"⟩) :=
  scalafmt_fmt_failure_surfaced_and_independent.1
    { classpath_entries := ["cp.jar"], config_snapshot := ["conf"]
    , extra_immutable_input_digests := [("__toolcp", 6)] }
    ["a/X.scala"] {"a/X.scala"} (fun _ => ⟨1, "out", "err"⟩)
    { argv := ["org.scalafmt.cli.Cli", "--config=conf", "--non-interactive", "a/X.scala"]
    , classpath_entries := ["cp.jar"]
    , input_digest := {"conf", "a/X.scala"}
    , output_files := ["a/X.scala"]
    , extra_immutable_input_digests := [("__toolcp", 6)]
    , use_nailgun := false }
    (by decide) (by decide)

end Scalafmt